import Mathlib

set_option maxHeartbeats 1000000

/-! # Verification of the pdfextract page-range utility

Shallow embedding of `pdfextract.py`: the page-range parser
`parse_page_ranges` and the orchestrator `extract_pages`, together with
theorems about their behaviour.  Strings are handled as lists of
characters; Python's built-in `int` conversion and `str.split`/`str.strip`
are modelled character by character.
-/

/-- Whitespace characters recognised by Python's `str.strip` and by `int()`
(ASCII space, tab, line feed, vertical tab, form feed, carriage return). -/
def isPySpace (c : Char) : Bool :=
  (c == ' ') || (c == '\t') || (c == '\n') || (c == Char.ofNat 11) ||
    (c == Char.ofNat 12) || (c == '\r')

/-- Model of Python `str.strip()`: remove leading and trailing whitespace. -/
def stripChars (l : List Char) : List Char :=
  ((l.dropWhile isPySpace).reverse.dropWhile isPySpace).reverse

/-- Helper for Python `str.split(sep)` with a one-character separator:
returns the fragment before the first separator and the list of the
remaining fragments. -/
def splitOnCharP (sep : Char) : List Char → List Char × List (List Char)
  | [] => ([], [])
  | c :: rest =>
    if c = sep then ([], (splitOnCharP sep rest).1 :: (splitOnCharP sep rest).2)
    else (c :: (splitOnCharP sep rest).1, (splitOnCharP sep rest).2)

/-- Model of Python `str.split(sep)` with a one-character separator: every
occurrence of `sep` separates fragments, empty fragments are kept. -/
def splitOnChar (sep : Char) (l : List Char) : List (List Char) :=
  (splitOnCharP sep l).1 :: (splitOnCharP sep l).2

/-- Digit-sequence tail of Python `int()`: digits with single underscores
allowed between digits, accumulating the value. -/
def pyDigitsAux (acc : Nat) : List Char → Option Nat
  | [] => some acc
  | '_' :: c :: rest =>
    if c.isDigit then pyDigitsAux (acc * 10 + (c.toNat - 48)) rest else none
  | c :: rest =>
    if c.isDigit then pyDigitsAux (acc * 10 + (c.toNat - 48)) rest else none

/-- Digit sequence of Python `int()`: one or more decimal digits with
single underscores allowed between digits; yields the denoted value. -/
def pyDigits : List Char → Option Nat
  | [] => none
  | c :: rest => if c.isDigit then pyDigitsAux (c.toNat - 48) rest else none

/-- Model of Python `int(str)`: surrounding whitespace is tolerated, then an
optional sign followed by a digit sequence; `none` models `ValueError`. -/
def pyInt (l : List Char) : Option Int :=
  match stripChars l with
  | [] => none
  | c :: rest =>
    if c = '+' then (pyDigits rest).map (fun n => (n : Int))
    else if c = '-' then (pyDigits rest).map (fun n => -(n : Int))
    else (pyDigits (c :: rest)).map (fun n => (n : Int))

/-- The three `ValueError` shapes raised by `parse_page_ranges`, each
carrying the (stripped) offending token. -/
inductive ParseError where
  | invalidRange (tok : List Char)
  | invalidRangeOrder (tok : List Char)
  | invalidPageNumber (tok : List Char)
deriving DecidableEq

/-- The code raises `invalidRange` and `invalidPageNumber` for malformed
tokens; both correspond to the spec's `InvalidRangeFormat`. -/
def isFormatError : ParseError → Bool
  | .invalidRange _ => true
  | .invalidPageNumber _ => true
  | .invalidRangeOrder _ => false

/-- The spec's `InvalidRangeOrder` corresponds to `invalidRangeOrder`. -/
def isOrderError : ParseError → Bool
  | .invalidRangeOrder _ => true
  | _ => false

/-- Model of Python `range(s, e + 1)` made into a list: the integers from
`s` to `e` inclusive, ascending. -/
def intRange (s e : Int) : List Int :=
  (List.range (e + 1 - s).toNat).map (fun i => s + (i : Int))

/-- One loop iteration of `parse_page_ranges` on a non-empty stripped
token: hyphenated tokens are split into exactly two integer fields and
expanded; other tokens are parsed as a single integer. -/
def processToken (tok : List Char) : Except ParseError (List Int) :=
  if '-' ∈ tok then
    match splitOnChar '-' tok with
    | [a, b] =>
      match pyInt a, pyInt b with
      | some s, some e =>
        if s > e then .error (.invalidRangeOrder tok) else .ok (intRange s e)
      | _, _ => .error (.invalidRange tok)
    | _ => .error (.invalidRange tok)
  else
    match pyInt tok with
    | some n => .ok [n]
    | none => .error (.invalidPageNumber tok)

/-- The token loop of `parse_page_ranges`: strip each comma-fragment, skip
empty ones, process the rest, concatenating the expansions; the first
`ValueError` aborts the whole parse. -/
def expandTokens : List (List Char) → Except ParseError (List Int)
  | [] => .ok []
  | t :: ts =>
    if stripChars t = [] then expandTokens ts
    else
      match processToken (stripChars t) with
      | .error e => .error e
      | .ok xs =>
        match expandTokens ts with
        | .error e => .error e
        | .ok rest => .ok (xs ++ rest)

/-- The filter/dedup loop of `parse_page_ranges`: keep a value when it lies
in `[1, total]` and has not been seen, recording kept values in `seen`. -/
def dedupFilterAux (total : Int) (seen : List Int) : List Int → List Int
  | [] => []
  | p :: rest =>
    if 1 ≤ p ∧ p ≤ total ∧ p ∉ seen then
      p :: dedupFilterAux total (p :: seen) rest
    else
      dedupFilterAux total seen rest

/-- `parse_page_ranges(page_ranges, total_pages)`: split on commas, expand
every token, then filter to `[1, total_pages]` and deduplicate keeping
first occurrences. -/
def parse_page_ranges (page_ranges : String) (total_pages : Int) :
    Except ParseError (List Int) :=
  match expandTokens (splitOnChar ',' page_ranges.toList) with
  | .error e => .error e
  | .ok pages => .ok (dedupFilterAux total_pages [] pages)

/-- Specification-level first-occurrence deduplication: keep an element and
erase its later occurrences from the deduplicated tail. -/
def keepFirst : List Int → List Int
  | [] => []
  | p :: rest => p :: (keepFirst rest).filter (fun q => decide (q ≠ p))

/-- Environment of one `extract_pages` invocation: the result of opening the
source document (`none` models an exception from `fitz.open`, otherwise the
list of page contents), and whether saving the output succeeds.  These are
the two document-library operations the program guards with `try`; the
spec's collaborator interface gives the others no failure outcome. -/
structure World where
  srcDoc : Option (List Nat)
  saveOk : Bool

/-- How one `extract_pages` invocation terminates. -/
inductive ExitKind where
  | success
  | openError
  | emptySource
  | rangeFormatError (e : ParseError)
  | noPagesSelected
  | saveError
deriving DecidableEq

/-- Every exit except printed success is a `sys.exit` with a message, i.e. a
non-zero process status. -/
def ExitKind.isFatal : ExitKind → Bool
  | .success => false
  | _ => true

/-- Observable outcome of `extract_pages`: which handles were opened, how
many times each was closed, the saved pages if any, and the exit taken. -/
structure RunResult where
  srcOpened : Bool
  srcCloses : Nat
  outCreated : Bool
  outCloses : Nat
  saved : Option (List Nat)
  exit : ExitKind
deriving DecidableEq

/-- `extract_pages(input_pdf, output_pdf, page_ranges)`: open the source,
reject empty documents, parse the range spec, reject empty selections, copy
the selected pages (0-based `page_num - 1`) into a new document, save it,
and close every opened handle on each path, as in the source. -/
def extract_pages (w : World) (page_ranges : String) : RunResult :=
  match w.srcDoc with
  | none => ⟨false, 0, false, 0, none, .openError⟩
  | some docPages =>
    let total_pages : Int := docPages.length
    if total_pages = 0 then ⟨true, 1, false, 0, none, .emptySource⟩
    else
      match parse_page_ranges page_ranges total_pages with
      | .error e => ⟨true, 1, false, 0, none, .rangeFormatError e⟩
      | .ok selected =>
        if selected = [] then ⟨true, 1, false, 0, none, .noPagesSelected⟩
        else
          let newPages := selected.map (fun p => docPages.getD (p - 1).toNat 0)
          if w.saveOk then ⟨true, 1, true, 1, some newPages, .success⟩
          else ⟨true, 1, true, 1, none, .saveError⟩

example : parse_page_ranges "1,3-5,10" 10 = .ok [1, 3, 4, 5, 10] := rfl
example : parse_page_ranges "3-5,4" 10 = .ok [3, 4, 5] := rfl
example : parse_page_ranges "10,1" 10 = .ok [10, 1] := rfl
example : parse_page_ranges "20" 5 = .ok [] := rfl
example : parse_page_ranges "5-3" 10 = .error (.invalidRangeOrder ['5', '-', '3']) := rfl
example : parse_page_ranges "-3" 10 = .error (.invalidRange ['-', '3']) := rfl
example : parse_page_ranges "" 7 = .ok [] := rfl
example : parse_page_ranges " , ," 7 = .ok [] := rfl
example : parse_page_ranges "+3" 10 = .ok [3] := rfl
example : parse_page_ranges "1 - 3" 10 = .ok [1, 2, 3] := rfl
example : parse_page_ranges "a-b" 10 = .error (.invalidRange ['a', '-', 'b']) := rfl
example : parse_page_ranges "a,5-3" 10 = .error (.invalidPageNumber ['a']) := rfl
example : parse_page_ranges "0" 10 = .ok [] := rfl
example : keepFirst [3, 4, 5, 4] = [3, 4, 5] := rfl

/-! ## Character-class lemmas -/

theorem space_cases {c : Char} (h : isPySpace c = true) :
    c = ' ' ∨ c = '\t' ∨ c = '\n' ∨ c = Char.ofNat 11 ∨ c = Char.ofNat 12 ∨ c = '\r' := by
  simp only [isPySpace, Bool.or_eq_true, beq_iff_eq] at h
  tauto

theorem digit_not_space {c : Char} (h : c.isDigit = true) : isPySpace c = false := by
  cases hs : isPySpace c
  · rfl
  · rcases space_cases hs with h1 | h1 | h1 | h1 | h1 | h1 <;> subst h1 <;> exact absurd h (by decide)

theorem digit_ne_comma {c : Char} (h : c.isDigit = true) : c ≠ ',' := by
  intro he; subst he; exact absurd h (by decide)

theorem digit_ne_hyphen {c : Char} (h : c.isDigit = true) : c ≠ '-' := by
  intro he; subst he; exact absurd h (by decide)

theorem digit_ne_plus {c : Char} (h : c.isDigit = true) : c ≠ '+' := by
  intro he; subst he; exact absurd h (by decide)

theorem space_ne_comma {c : Char} (h : isPySpace c = true) : c ≠ ',' := by
  intro he; subst he; exact absurd h (by decide)

theorem space_ne_hyphen {c : Char} (h : isPySpace c = true) : c ≠ '-' := by
  intro he; subst he; exact absurd h (by decide)


/-! ## Lemmas about whitespace stripping -/

theorem dropWhile_append_of_all {p : Char → Bool} {w r : List Char}
    (h : ∀ c ∈ w, p c = true) : (w ++ r).dropWhile p = r.dropWhile p := by
  induction w with
  | nil => rfl
  | cons c w2 ih =>
    rw [List.cons_append, List.dropWhile_cons, if_pos (h c (by simp))]
    exact ih (fun x hx => h x (by simp [hx]))

theorem dropWhile_of_all_neg {p : Char → Bool} {l : List Char}
    (h : ∀ c ∈ l, p c = false) : l.dropWhile p = l := by
  cases l with
  | nil => rfl
  | cons c r => rw [List.dropWhile_cons, if_neg (by simp [h c (by simp)])]

theorem dropWhile_eq_self_append {p : Char → Bool} {m r : List Char}
    (hm : m.dropWhile p = m) (hnil : m ≠ []) : (m ++ r).dropWhile p = m ++ r := by
  cases m with
  | nil => exact absurd rfl hnil
  | cons c m2 =>
    have hc : p c = false := by
      have h0 := List.head?_dropWhile_not p (c :: m2)
      rw [hm] at h0
      simpa using h0
    rw [List.cons_append, List.dropWhile_cons, if_neg (by simp [hc])]

theorem strip_all_space {w : List Char} (h : ∀ c ∈ w, isPySpace c = true) :
    stripChars w = [] := by
  unfold stripChars
  have h1 : w.dropWhile isPySpace = [] := by
    have h2 := @dropWhile_append_of_all isPySpace w [] h
    simpa using h2
  rw [h1]
  rfl

theorem strip_no_space {l : List Char} (h : ∀ c ∈ l, isPySpace c = false) :
    stripChars l = l := by
  unfold stripChars
  rw [dropWhile_of_all_neg h,
    dropWhile_of_all_neg (fun c hc => h c (List.mem_reverse.mp hc)),
    List.reverse_reverse]

theorem strip_sandwich {w1 w2 m : List Char}
    (hw1 : ∀ c ∈ w1, isPySpace c = true) (hw2 : ∀ c ∈ w2, isPySpace c = true)
    (hnil : m ≠ [])
    (h1 : m.dropWhile isPySpace = m)
    (h2 : m.reverse.dropWhile isPySpace = m.reverse) :
    stripChars (w1 ++ m ++ w2) = m := by
  unfold stripChars
  have e1 : (w1 ++ m ++ w2).dropWhile isPySpace = m ++ w2 := by
    rw [List.append_assoc, dropWhile_append_of_all hw1]
    exact dropWhile_eq_self_append h1 hnil
  have e2 : (m ++ w2).reverse.dropWhile isPySpace = m.reverse := by
    rw [List.reverse_append,
      dropWhile_append_of_all (fun c hc => hw2 c (List.mem_reverse.mp hc))]
    exact h2
  rw [e1, e2, List.reverse_reverse]

/-! ## Lemmas about comma/hyphen splitting -/

theorem splitP_no_sep {sep : Char} {l : List Char} (h : sep ∉ l) :
    splitOnCharP sep l = (l, []) := by
  induction l with
  | nil => rfl
  | cons c r ih =>
    have hc : ¬ c = sep := by
      intro he
      exact h (by simp [he])
    have hr : sep ∉ r := fun hm => h (by simp [hm])
    simp [splitOnCharP, hc, ih hr]

theorem split_no_sep {sep : Char} {l : List Char} (h : sep ∉ l) :
    splitOnChar sep l = [l] := by
  simp [splitOnChar, splitP_no_sep h]

theorem splitP_append {sep : Char} {x y : List Char} (h : sep ∉ x) :
    splitOnCharP sep (x ++ sep :: y) =
      ([] ++ x, (splitOnCharP sep y).1 :: (splitOnCharP sep y).2) := by
  induction x with
  | nil => simp [splitOnCharP]
  | cons c r ih =>
    have hc : ¬ c = sep := by
      intro he
      exact h (by simp [he])
    have hr : sep ∉ r := fun hm => h (by simp [hm])
    simp [splitOnCharP, hc, ih hr]

theorem split_append {sep : Char} {x y : List Char} (h : sep ∉ x) :
    splitOnChar sep (x ++ sep :: y) = x :: splitOnChar sep y := by
  simp [splitOnChar, splitP_append h]

theorem sep_mem_of_split_pair {sep : Char} {l a b : List Char}
    (h : splitOnChar sep l = [a, b]) : sep ∈ l := by
  by_contra hn
  rw [split_no_sep hn] at h
  simp at h

/-! ## Lemmas about the integer reader -/

theorem pyInt_padded {w1 w2 ds : List Char} {n : Nat}
    (hw1 : ∀ c ∈ w1, isPySpace c = true) (hw2 : ∀ c ∈ w2, isPySpace c = true)
    (hds : ∀ c ∈ ds, c.isDigit = true) (hn : pyDigits ds = some n) :
    pyInt (w1 ++ ds ++ w2) = some (n : Int) := by
  cases ds with
  | nil => exact absurd hn (by simp [pyDigits])
  | cons d ds2 =>
    have hd : d.isDigit = true := hds d (by simp)
    have hnospace : ∀ c ∈ (d :: ds2), isPySpace c = false :=
      fun c hc => digit_not_space (hds c hc)
    have hstrip : stripChars (w1 ++ (d :: ds2) ++ w2) = d :: ds2 :=
      strip_sandwich hw1 hw2 (by simp) (dropWhile_of_all_neg hnospace)
        (dropWhile_of_all_neg (fun c hc => hnospace c (List.mem_reverse.mp hc)))
    have hstrip2 : stripChars (w1 ++ d :: (ds2 ++ w2)) = d :: ds2 := by
      simpa using hstrip
    simp [pyInt, hstrip2, digit_ne_plus hd, digit_ne_hyphen hd, hn]

/-! ## Lemmas about the token loop -/

theorem expandTokens_append_ok {l1 l2 : List (List Char)} {w1 : List Int}
    (h : expandTokens l1 = .ok w1) :
    expandTokens (l1 ++ l2) =
      match expandTokens l2 with
      | .error e => .error e
      | .ok w2 => .ok (w1 ++ w2) := by
  induction l1 generalizing w1 with
  | nil =>
    simp only [expandTokens] at h
    cases h
    simp only [List.nil_append]
    cases h2 : expandTokens l2 <;> simp [h2]
  | cons t ts ih =>
    by_cases hst : stripChars t = []
    · rw [expandTokens, if_pos hst] at h
      rw [List.cons_append, expandTokens, if_pos hst]
      exact ih h
    · rw [expandTokens, if_neg hst] at h
      rw [List.cons_append, expandTokens, if_neg hst]
      cases hp : processToken (stripChars t) with
      | error e => rw [hp] at h; cases h
      | ok xs =>
        rw [hp] at h
        cases he : expandTokens ts with
        | error e => rw [he] at h; cases h
        | ok rest =>
          rw [he] at h
          cases h
          rw [ih he]
          cases h2 : expandTokens l2 <;> simp [h2, List.append_assoc]

theorem expandTokens_first_error {t : List Char} {ts : List (List Char)} {e : ParseError}
    (hne : stripChars t ≠ [])
    (hp : processToken (stripChars t) = .error e) :
    expandTokens (t :: ts) = .error e := by
  rw [expandTokens, if_neg hne, hp]

/-! ## Lemmas about deduplication -/

theorem keepFirst_nodup (l : List Int) : (keepFirst l).Nodup := by
  induction l with
  | nil => exact List.nodup_nil
  | cons p rest ih =>
    rw [keepFirst]
    refine List.Nodup.cons ?_ (List.Nodup.filter _ ih)
    intro hmem
    have := List.of_mem_filter hmem
    simp at this

theorem mem_of_mem_keepFirst {q : Int} {l : List Int} (h : q ∈ keepFirst l) : q ∈ l := by
  induction l with
  | nil => cases h
  | cons p rest ih =>
    rw [keepFirst] at h
    rcases List.mem_cons.mp h with h1 | h1
    · simp [h1]
    · exact List.mem_cons_of_mem _ (ih (List.mem_of_mem_filter h1))

theorem dedupFilterAux_eq_keepFirst (total : Int) :
    ∀ (xs seen : List Int),
      dedupFilterAux total seen xs =
        (keepFirst (xs.filter (fun p => decide (1 ≤ p ∧ p ≤ total)))).filter
          (fun q => decide (q ∉ seen)) := by
  intro xs
  induction xs with
  | nil => intro seen; rfl
  | cons p rest ih =>
    intro seen
    by_cases hin : 1 ≤ p ∧ p ≤ total
    · by_cases hseen : p ∈ seen
      · rw [dedupFilterAux, if_neg (by tauto)]
        rw [List.filter_cons, if_pos (by simpa using hin), keepFirst,
          List.filter_cons, if_neg (by simpa using hseen)]
        rw [ih seen, List.filter_filter]
        apply List.filter_congr
        intro q hq
        by_cases hqp : q = p
        · subst hqp
          simp [hseen]
        · simp [hqp]
      · rw [dedupFilterAux, if_pos (by tauto)]
        rw [List.filter_cons, if_pos (by simpa using hin), keepFirst,
          List.filter_cons, if_pos (by simpa using hseen)]
        rw [ih (p :: seen), List.filter_filter]
        congr 1
        apply List.filter_congr
        intro q hq
        by_cases hqp : q = p
        · subst hqp
          simp
        · simp [hqp]
    · rw [dedupFilterAux, if_neg (by tauto)]
      rw [List.filter_cons, if_neg (by simpa using hin)]
      exact ih seen

theorem dedupFilterAux_nil_seen (total : Int) (xs : List Int) :
    dedupFilterAux total [] xs =
      keepFirst (xs.filter (fun p => decide (1 ≤ p ∧ p ≤ total))) := by
  rw [dedupFilterAux_eq_keepFirst]
  simp

/-! ## Inversion of the parser -/

theorem parse_ok_inv {spec : String} {total : Int} {l : List Int}
    (h : parse_page_ranges spec total = .ok l) :
    ∃ ws, expandTokens (splitOnChar ',' spec.toList) = .ok ws ∧
      l = dedupFilterAux total [] ws := by
  rw [parse_page_ranges] at h
  cases he : expandTokens (splitOnChar ',' spec.toList) with
  | error e => rw [he] at h; cases h
  | ok ws =>
    rw [he] at h
    cases h
    exact ⟨ws, rfl, rfl⟩

theorem parse_of_expand_ok {spec : String} {total : Int} {ws : List Int}
    (h : expandTokens (splitOnChar ',' spec.toList) = .ok ws) :
    parse_page_ranges spec total = .ok (dedupFilterAux total [] ws) := by
  rw [parse_page_ranges, h]

/-! ## Whitespace-only specs -/

theorem expandTokens_all_space {parts : List (List Char)}
    (h : ∀ part ∈ parts, ∀ c ∈ part, isPySpace c = true) :
    expandTokens parts = .ok [] := by
  induction parts with
  | nil => rfl
  | cons t ts ih =>
    rw [expandTokens, if_pos (strip_all_space (h t (by simp)))]
    exact ih (fun part hp c hc => h part (by simp [hp]) c hc)

theorem splitP_space_comma {l : List Char}
    (h : ∀ c ∈ l, isPySpace c = true ∨ c = ',') :
    (∀ c ∈ (splitOnCharP ',' l).1, isPySpace c = true) ∧
    (∀ part ∈ (splitOnCharP ',' l).2, ∀ c ∈ part, isPySpace c = true) := by
  induction l with
  | nil => exact ⟨by simp [splitOnCharP], by simp [splitOnCharP]⟩
  | cons c rest ih =>
    have ihr := ih (fun x hx => h x (by simp [hx]))
    by_cases hc : c = ','
    · simp only [splitOnCharP, if_pos hc]
      refine ⟨by simp, ?_⟩
      intro part hp
      rcases List.mem_cons.mp hp with h1 | h1
      · subst h1
        exact ihr.1
      · exact ihr.2 part h1
    · have hcs : isPySpace c = true := by
        rcases h c (by simp) with h1 | h1
        · exact h1
        · exact absurd h1 hc
      simp only [splitOnCharP, if_neg hc]
      refine ⟨?_, ihr.2⟩
      intro x hx
      rcases List.mem_cons.mp hx with h1 | h1
      · subst h1
        exact hcs
      · exact ihr.1 x h1

/-! ## Claim theorems -/

/-- Claim C1, counterexample: the spec string "-3" consists of one token
denoting a negative integer and `totalPages = 10 ≥ 1`, yet `parse_page_ranges`
raises the format error for that token: the leading minus makes the token
count as hyphenated, and its first field "" is not a well-formed integer. -/
theorem negative_token_raises_format_error_cex :
    parse_page_ranges "-3" 10 = .error (.invalidRange ['-', '3']) ∧
    isFormatError (.invalidRange ['-', '3']) = true :=
  ⟨rfl, rfl⟩

/-- Claim C1, amended: a token without a hyphen that `int()` accepts never
raises a format error (in particular a zero token such as "0"), and any value
`v ≤ 0` is silently dropped by the range-filtering step; but a token denoting
a negative integer starts with a minus, is treated as a range token, and
raises the format error. -/
theorem zero_token_filtered_negative_token_rejected :
    (∀ (tok : List Char) (v : Int), '-' ∉ tok → pyInt tok = some v →
      processToken tok = .ok [v]) ∧
    (∀ (v : Int), v ≤ 0 → ∀ (total : Int) (seen rest : List Int),
      dedupFilterAux total seen (v :: rest) = dedupFilterAux total seen rest) ∧
    (∀ (ds : List Char) (n : Nat), pyDigits ds = some n →
      (∀ c ∈ ds, c.isDigit = true) →
      processToken ('-' :: ds) = .error (.invalidRange ('-' :: ds))) := by
  refine ⟨?_, ?_, ?_⟩
  · intro tok v hc hv
    rw [processToken, if_neg hc, hv]
  · intro v hv total seen rest
    rw [dedupFilterAux, if_neg]
    rintro ⟨h1, -⟩
    omega
  · intro ds n hds hdig
    have hnm : '-' ∉ ds := fun hm => digit_ne_hyphen (hdig _ hm) rfl
    rw [processToken, if_pos (by simp)]
    have hsplit : splitOnChar '-' ('-' :: ds) = [] :: splitOnChar '-' ds := by
      have h0 := @split_append '-' [] ds (by simp)
      simpa using h0
    rw [hsplit, split_no_sep hnm]
    rfl

/-- Claim C1, witness: the zero token "0" parses without error and zero is
dropped by the filter, while the negative token "-3" raises the format
error. -/
theorem zero_token_filtered_negative_token_rejected_witness :
    processToken ['0'] = .ok [0] ∧
    dedupFilterAux 10 [] [0, 2] = dedupFilterAux 10 [] [2] ∧
    processToken ['-', '3'] = .error (.invalidRange ['-', '3']) :=
  ⟨zero_token_filtered_negative_token_rejected.1 ['0'] 0 (by decide) rfl,
   zero_token_filtered_negative_token_rejected.2.1 0 (by decide) 10 [] [2],
   zero_token_filtered_negative_token_rejected.2.2 ['3'] 3 rfl (by decide)⟩

/-- Claim C3: whenever `parse_page_ranges` succeeds, the returned list
contains no duplicate values. -/
theorem parse_result_nodup (spec : String) (total : Int) (l : List Int)
    (h : parse_page_ranges spec total = .ok l) : l.Nodup := by
  obtain ⟨ws, hws, hl⟩ := parse_ok_inv h
  subst hl
  rw [dedupFilterAux_nil_seen]
  exact keepFirst_nodup _

/-- Claim C3, witness: the duplicate across token boundaries in "3-5,4" is
dropped and the result has no duplicates. -/
theorem parse_result_nodup_witness :
    parse_page_ranges "3-5,4" 10 = .ok [3, 4, 5] ∧ ([3, 4, 5] : List Int).Nodup :=
  ⟨rfl, parse_result_nodup "3-5,4" 10 [3, 4, 5] rfl⟩

/-- Claim C4: on success the result is exactly the first-occurrence
deduplication of the in-range values of the expanded working sequence, in
the order they were expanded from the spec — never globally sorted. -/
theorem parse_first_occurrence_order (spec : String) (total : Int) (ws : List Int)
    (h : expandTokens (splitOnChar ',' spec.toList) = .ok ws) :
    parse_page_ranges spec total =
      .ok (keepFirst (ws.filter (fun p => decide (1 ≤ p ∧ p ≤ total)))) := by
  rw [parse_of_expand_ok h, dedupFilterAux_nil_seen]

/-- Claim C4, witness: "10,1" expands to [10, 1] and parses to [10, 1],
not to the sorted [1, 10]; "1,3-5,10" keeps ranges ascending in place. -/
theorem parse_first_occurrence_order_witness :
    expandTokens (splitOnChar ',' "10,1".toList) = .ok [10, 1] ∧
    parse_page_ranges "10,1" 10 =
      .ok (keepFirst (([10, 1] : List Int).filter (fun p => decide (1 ≤ p ∧ p ≤ 10)))) ∧
    keepFirst (([10, 1] : List Int).filter (fun p => decide (1 ≤ p ∧ p ≤ 10))) = [10, 1] ∧
    parse_page_ranges "1,3-5,10" 10 = .ok [1, 3, 4, 5, 10] :=
  ⟨rfl, parse_first_occurrence_order "10,1" 10 [10, 1] rfl, rfl, rfl⟩

/-- Claim C5: an out-of-range value never makes the parser fail; whenever the
expansion succeeds the parse succeeds, and every value in the result lies in
`[1, totalPages]` (out-of-range values are silently omitted). -/
theorem out_of_range_silently_omitted (spec : String) (total : Int) (ws : List Int)
    (h : expandTokens (splitOnChar ',' spec.toList) = .ok ws) :
    ∃ l, parse_page_ranges spec total = .ok l ∧
      ∀ p ∈ l, 1 ≤ p ∧ p ≤ total ∧ p ∈ ws := by
  refine ⟨dedupFilterAux total [] ws, parse_of_expand_ok h, ?_⟩
  intro p hp
  rw [dedupFilterAux_nil_seen] at hp
  have h1 := mem_of_mem_keepFirst hp
  have h2 := List.mem_of_mem_filter h1
  have h3 := List.of_mem_filter h1
  simp only [decide_eq_true_eq] at h3
  exact ⟨h3.1, h3.2, h2⟩

/-- Claim C5, witness: "20" with 5 pages expands to [20], parses without
error, and the out-of-range 20 is omitted, leaving the empty list. -/
theorem out_of_range_silently_omitted_witness :
    expandTokens (splitOnChar ',' "20".toList) = .ok [20] ∧
    (∃ l, parse_page_ranges "20" 5 = .ok l ∧ ∀ p ∈ l, 1 ≤ p ∧ p ≤ 5 ∧ p ∈ [20]) ∧
    parse_page_ranges "20" 5 = .ok [] :=
  ⟨rfl, out_of_range_silently_omitted "20" 5 [20] rfl, rfl⟩

/-- Claim C6, counterexample: "a,5-3" contains the hyphenated token "5-3"
whose fields parse as 5 > 3, yet the parse fails with the format error for
the earlier token "a", not with the range-order error. -/
theorem order_error_preempted_cex :
    splitOnChar ',' ("a,5-3").toList = [['a'], ['5', '-', '3']] ∧
    splitOnChar '-' ['5', '-', '3'] = [['5'], ['3']] ∧
    pyInt ['5'] = some 5 ∧ pyInt ['3'] = some 3 ∧ (5 : Int) > 3 ∧
    parse_page_ranges "a,5-3" 10 = .error (.invalidPageNumber ['a']) ∧
    isOrderError (.invalidPageNumber ['a']) = false :=
  ⟨rfl, rfl, rfl, rfl, by decide, rfl, rfl⟩

/-- Claim C6, amended: if every token before the offending one expands
without error, a hyphenated token whose two fields parse as integers with
start > end makes `parse_page_ranges` fail with the range-order error. -/
theorem range_order_error_after_ok_tokens (spec : String) (total : Int)
    (ts1 ts2 : List (List Char)) (tok a b : List Char) (s e : Int) (w1 : List Int)
    (hsplit : splitOnChar ',' spec.toList = ts1 ++ tok :: ts2)
    (hok : expandTokens ts1 = .ok w1)
    (htok : splitOnChar '-' (stripChars tok) = [a, b])
    (ha : pyInt a = some s) (hb : pyInt b = some e) (hlt : e < s) :
    parse_page_ranges spec total = .error (.invalidRangeOrder (stripChars tok)) := by
  have hmem : '-' ∈ stripChars tok := sep_mem_of_split_pair htok
  have hne : stripChars tok ≠ [] := by
    intro h0
    rw [h0] at hmem
    cases hmem
  have hpt : processToken (stripChars tok) =
      .error (.invalidRangeOrder (stripChars tok)) := by
    rw [processToken, if_pos hmem, htok]
    simp only [ha, hb]
    rw [if_pos hlt]
  have hexp : expandTokens (ts1 ++ tok :: ts2) =
      .error (.invalidRangeOrder (stripChars tok)) := by
    rw [expandTokens_append_ok hok, expandTokens_first_error hne hpt]
  rw [parse_page_ranges, hsplit, hexp]

/-- Claim C6, witness: in "1,5-3" the token "1" expands fine and "5-3" then
raises the range-order error. -/
theorem range_order_error_after_ok_tokens_witness :
    parse_page_ranges "1,5-3" 10 = .error (.invalidRangeOrder ['5', '-', '3']) :=
  range_order_error_after_ok_tokens "1,5-3" 10 [['1']] [] ['5', '-', '3']
    ['5'] ['3'] 5 3 [1] rfl rfl rfl rfl rfl (by decide)

/-- Claim C8: a spec string made only of whitespace and commas parses to the
empty list without any error, for every `totalPages ≥ 1`. -/
theorem whitespace_comma_spec_empty (spec : String) (total : Int)
    (htotal : 1 ≤ total)
    (h : ∀ c ∈ spec.toList, isPySpace c = true ∨ c = ',') :
    parse_page_ranges spec total = .ok [] := by
  have hsp := splitP_space_comma h
  have hexp : expandTokens (splitOnChar ',' spec.toList) = .ok [] := by
    apply expandTokens_all_space
    intro part hp
    rcases List.mem_cons.mp hp with h1 | h1
    · subst h1
      exact hsp.1
    · exact hsp.2 part h1
  rw [parse_of_expand_ok hexp]
  rfl

/-- Claim C8, witness: the spec " , ," of spaces and commas parses to the
empty list with 7 total pages. -/
theorem whitespace_comma_spec_empty_witness :
    (1 : Int) ≤ 7 ∧ (∀ c ∈ (" , ,").toList, isPySpace c = true ∨ c = ',') ∧
    parse_page_ranges " , ," 7 = .ok [] :=
  ⟨by decide, by decide, whitespace_comma_spec_empty " , ," 7 (by decide) (by decide)⟩

/-- Claim C2: on every exit path of `extract_pages`, the source handle is
closed exactly once when it was opened (and never otherwise), and the output
handle is closed exactly once when it was created (and never otherwise). -/
theorem extract_pages_closes_each_handle_once (w : World) (pr : String) :
    (extract_pages w pr).srcOpened = w.srcDoc.isSome ∧
    (extract_pages w pr).srcCloses =
      (if (extract_pages w pr).srcOpened = true then 1 else 0) ∧
    (extract_pages w pr).outCloses =
      (if (extract_pages w pr).outCreated = true then 1 else 0) := by
  rcases w with ⟨src, sv⟩
  cases src with
  | none => simp [extract_pages]
  | some pages =>
    simp only [extract_pages]
    by_cases h0 : (pages.length : Int) = 0
    · simp [h0]
    · simp only [if_neg h0]
      cases hp : parse_page_ranges pr (pages.length : Int) with
      | error e => simp
      | ok sel =>
        by_cases hs : sel = []
        · simp [hs]
        · simp only [if_neg hs]
          cases sv <;> simp

/-- Claim C7: if the source opens with at least one page and the parse
succeeds with an empty selection, `extract_pages` exits fatally with the
no-pages-selected condition, closing the source handle once and never
creating or saving the output document. -/
theorem empty_selection_fatal (w : World) (pr : String) (pages : List Nat)
    (hsrc : w.srcDoc = some pages) (hne : pages ≠ [])
    (hparse : parse_page_ranges pr (pages.length : Int) = .ok []) :
    (extract_pages w pr).exit = .noPagesSelected ∧
    ((extract_pages w pr).exit).isFatal = true ∧
    (extract_pages w pr).srcCloses = 1 ∧
    (extract_pages w pr).outCreated = false ∧
    (extract_pages w pr).saved = none := by
  rcases w with ⟨src, sv⟩
  have hsrc2 : src = some pages := hsrc
  subst hsrc2
  have h0 : ¬ ((pages.length : Int) = 0) := by
    intro hx
    apply hne
    have : pages.length = 0 := by exact_mod_cast hx
    exact List.length_eq_zero.mp this
  simp only [extract_pages, if_neg h0, hparse]
  simp [ExitKind.isFatal]

/-- Claim C7, witness: a 5-page source with spec "20" selects no pages and
exits fatally with the no-pages-selected condition. -/
theorem empty_selection_fatal_witness :
    (extract_pages (World.mk (some [11, 12, 13, 14, 15]) true) "20").exit =
      .noPagesSelected ∧
    ((extract_pages (World.mk (some [11, 12, 13, 14, 15]) true) "20").exit).isFatal
      = true ∧
    (extract_pages (World.mk (some [11, 12, 13, 14, 15]) true) "20").srcCloses = 1 ∧
    (extract_pages (World.mk (some [11, 12, 13, 14, 15]) true) "20").outCreated
      = false ∧
    (extract_pages (World.mk (some [11, 12, 13, 14, 15]) true) "20").saved = none :=
  empty_selection_fatal (World.mk (some [11, 12, 13, 14, 15]) true) "20"
    [11, 12, 13, 14, 15] rfl (by decide) rfl

/-- Claim C9: a token written as a plus sign followed by digits denoting a
value `n` with `1 ≤ n ≤ totalPages` is accepted by `parse_page_ranges` and
`n` appears in the result. -/
theorem plus_sign_token_accepted (ds : List Char) (n : Nat) (total : Int)
    (hdig : ∀ c ∈ ds, c.isDigit = true) (hn : pyDigits ds = some n)
    (h1 : 1 ≤ (n : Int)) (h2 : (n : Int) ≤ total) :
    parse_page_ranges (String.mk ('+' :: ds)) total = .ok [(n : Int)] := by
  have hnocomma : ',' ∉ ('+' :: ds) := by
    intro hm
    rcases List.mem_cons.mp hm with h0 | h0
    · exact absurd h0 (by decide)
    · exact absurd (hdig _ h0) (by decide)
  have hsplit : splitOnChar ',' (String.mk ('+' :: ds)).toList = [('+' :: ds)] :=
    split_no_sep hnocomma
  have hnospace : ∀ c ∈ ('+' :: ds), isPySpace c = false := by
    intro c hc
    rcases List.mem_cons.mp hc with h0 | h0
    · subst h0
      decide
    · exact digit_not_space (hdig _ h0)
  have hstrip : stripChars ('+' :: ds) = '+' :: ds := strip_no_space hnospace
  have hnohyp : '-' ∉ ('+' :: ds) := by
    intro hm
    rcases List.mem_cons.mp hm with h0 | h0
    · exact absurd h0 (by decide)
    · exact absurd (hdig _ h0) (by decide)
  have hpy : pyInt ('+' :: ds) = some (n : Int) := by
    simp [pyInt, hstrip, hn]
  have hpt : processToken ('+' :: ds) = .ok [(n : Int)] := by
    rw [processToken, if_neg hnohyp, hpy]
  have hexp : expandTokens [('+' :: ds)] = .ok [(n : Int)] := by
    rw [expandTokens, hstrip, if_neg (List.cons_ne_nil '+' ds), hpt]
    simp [expandTokens]
  rw [parse_page_ranges, hsplit, hexp]
  simp [dedupFilterAux, h1, h2]

/-- Claim C9, witness: the token "+3" yields page 3 on a 10-page document. -/
theorem plus_sign_token_accepted_witness :
    parse_page_ranges (String.mk ['+', '3']) 10 = .ok [3] :=
  plus_sign_token_accepted ['3'] 3 10 (by decide) rfl (by decide) (by decide)

/-- A hyphenated token made of two digit fields, each possibly padded with
whitespace, with outer padding around the whole token: the parse result is
the deduplicated in-range filter of the ascending expansion of the range. -/
theorem parse_hyphen_token_padded (w1 w2 w3 w4 ds es : List Char) (s e : Nat)
    (total : Int)
    (hw1 : ∀ c ∈ w1, isPySpace c = true) (hw2 : ∀ c ∈ w2, isPySpace c = true)
    (hw3 : ∀ c ∈ w3, isPySpace c = true) (hw4 : ∀ c ∈ w4, isPySpace c = true)
    (hds : ∀ c ∈ ds, c.isDigit = true) (hes : ∀ c ∈ es, c.isDigit = true)
    (hs : pyDigits ds = some s) (he : pyDigits es = some e) (hse : s ≤ e) :
    parse_page_ranges (String.mk (w1 ++ ds ++ w2 ++ '-' :: (w3 ++ es ++ w4)))
      total = .ok (dedupFilterAux total [] (intRange (s : Int) (e : Int))) := by
  have hnc : (',' : Char) ∉ w1 ++ ds ++ w2 ++ '-' :: (w3 ++ es ++ w4) := by
    intro hm
    simp only [List.mem_append, List.mem_cons, or_assoc] at hm
    rcases hm with hm | hm | hm | hm | hm | hm | hm
    · exact absurd (hw1 _ hm) (by decide)
    · exact absurd (hds _ hm) (by decide)
    · exact absurd (hw2 _ hm) (by decide)
    · exact absurd hm (by decide)
    · exact absurd (hw3 _ hm) (by decide)
    · exact absurd (hes _ hm) (by decide)
    · exact absurd (hw4 _ hm) (by decide)
  have hnohy1 : ('-' : Char) ∉ ds ++ w2 := by
    intro hm
    rcases List.mem_append.mp hm with hm | hm
    · exact absurd (hds _ hm) (by decide)
    · exact absurd (hw2 _ hm) (by decide)
  have hnohy2 : ('-' : Char) ∉ w3 ++ es := by
    intro hm
    rcases List.mem_append.mp hm with hm | hm
    · exact absurd (hw3 _ hm) (by decide)
    · exact absurd (hes _ hm) (by decide)
  obtain ⟨d, ds2, rfl⟩ : ∃ d ds2, ds = d :: ds2 := by
    cases ds with
    | nil => simp [pyDigits] at hs
    | cons d ds2 => exact ⟨d, ds2, rfl⟩
  obtain ⟨e0, es2, rfl⟩ : ∃ e0 es2, es = e0 :: es2 := by
    cases es with
    | nil => simp [pyDigits] at he
    | cons e0 es2 => exact ⟨e0, es2, rfl⟩
  have htokeq : w1 ++ (d :: ds2) ++ w2 ++ '-' :: (w3 ++ (e0 :: es2) ++ w4) =
      w1 ++ ((d :: ds2) ++ w2 ++ '-' :: (w3 ++ (e0 :: es2))) ++ w4 := by
    simp [List.append_assoc]
  have hMdrop : ((d :: ds2) ++ w2 ++ '-' :: (w3 ++ (e0 :: es2))).dropWhile
      isPySpace = (d :: ds2) ++ w2 ++ '-' :: (w3 ++ (e0 :: es2)) :=
    List.dropWhile_cons_of_neg (by simp [digit_not_space (hds d (by simp))])
  have hMrev : (((d :: ds2) ++ w2 ++ '-' :: (w3 ++ (e0 :: es2))).reverse).dropWhile
      isPySpace = ((d :: ds2) ++ w2 ++ '-' :: (w3 ++ (e0 :: es2))).reverse := by
    have hMeq2 : (d :: ds2) ++ w2 ++ '-' :: (w3 ++ (e0 :: es2)) =
        ((d :: ds2) ++ w2 ++ '-' :: w3) ++ (e0 :: es2) := by
      simp [List.append_assoc]
    rw [hMeq2, List.reverse_append]
    apply dropWhile_eq_self_append
    · apply dropWhile_of_all_neg
      intro c hc
      exact digit_not_space (hes c (List.mem_reverse.mp hc))
    · simp
  have hstrip : stripChars (w1 ++ (d :: ds2) ++ w2 ++ '-' :: (w3 ++ (e0 :: es2) ++ w4)) =
      (d :: ds2) ++ w2 ++ '-' :: (w3 ++ (e0 :: es2)) := by
    rw [htokeq]
    exact strip_sandwich hw1 hw4 (by simp) hMdrop hMrev
  have hmemhy : ('-' : Char) ∈ (d :: ds2) ++ w2 ++ '-' :: (w3 ++ (e0 :: es2)) := by
    simp
  have hsplith : splitOnChar '-' ((d :: ds2) ++ w2 ++ '-' :: (w3 ++ (e0 :: es2))) =
      [(d :: ds2) ++ w2, w3 ++ (e0 :: es2)] := by
    have h0 : (d :: ds2) ++ w2 ++ '-' :: (w3 ++ (e0 :: es2)) =
        ((d :: ds2) ++ w2) ++ '-' :: (w3 ++ (e0 :: es2)) := by
      simp [List.append_assoc]
    rw [h0, split_append hnohy1, split_no_sep hnohy2]
  have hpa : pyInt ((d :: ds2) ++ w2) = some ((s : Nat) : Int) := by
    have h0 := @pyInt_padded [] w2 (d :: ds2) s (by simp) hw2 hds hs
    simpa using h0
  have hpb : pyInt (w3 ++ (e0 :: es2)) = some ((e : Nat) : Int) := by
    have h0 := @pyInt_padded w3 [] (e0 :: es2) e hw3 (by simp) hes he
    rwa [List.append_nil] at h0
  have hnotgt : ¬ (((s : Nat) : Int) > ((e : Nat) : Int)) := by
    simp only [gt_iff_lt, not_lt]
    exact_mod_cast hse
  have hpt : processToken ((d :: ds2) ++ w2 ++ '-' :: (w3 ++ (e0 :: es2))) =
      .ok (intRange (s : Int) (e : Int)) := by
    rw [processToken, if_pos hmemhy, hsplith]
    simp only [hpa, hpb]
    rw [if_neg hnotgt]
  have hexp : expandTokens [w1 ++ (d :: ds2) ++ w2 ++ '-' :: (w3 ++ (e0 :: es2) ++ w4)] =
      .ok (intRange (s : Int) (e : Int)) := by
    rw [expandTokens, hstrip, if_neg (by simp), hpt]
    simp [expandTokens]
  have htl : (String.mk (w1 ++ (d :: ds2) ++ w2 ++ '-' :: (w3 ++ (e0 :: es2) ++ w4))).toList =
      w1 ++ (d :: ds2) ++ w2 ++ '-' :: (w3 ++ (e0 :: es2) ++ w4) := rfl
  rw [parse_page_ranges, htl, split_no_sep hnc, hexp]

/-- Claim C10: a hyphenated token with whitespace adjacent to the hyphen
parses successfully and expands exactly as the same token with the
whitespace removed, because each field is integer-parsed with surrounding
whitespace tolerated. -/
theorem hyphen_token_whitespace_tolerated (w1 w2 w3 w4 ds es : List Char)
    (s e : Nat) (total : Int)
    (hw1 : ∀ c ∈ w1, isPySpace c = true) (hw2 : ∀ c ∈ w2, isPySpace c = true)
    (hw3 : ∀ c ∈ w3, isPySpace c = true) (hw4 : ∀ c ∈ w4, isPySpace c = true)
    (hds : ∀ c ∈ ds, c.isDigit = true) (hes : ∀ c ∈ es, c.isDigit = true)
    (hs : pyDigits ds = some s) (he : pyDigits es = some e) (hse : s ≤ e) :
    parse_page_ranges (String.mk (w1 ++ ds ++ w2 ++ '-' :: (w3 ++ es ++ w4)))
      total = .ok (dedupFilterAux total [] (intRange (s : Int) (e : Int))) ∧
    parse_page_ranges (String.mk (ds ++ '-' :: es)) total =
      .ok (dedupFilterAux total [] (intRange (s : Int) (e : Int))) := by
  constructor
  · exact parse_hyphen_token_padded w1 w2 w3 w4 ds es s e total
      hw1 hw2 hw3 hw4 hds hes hs he hse
  · have h0 := parse_hyphen_token_padded [] [] [] [] ds es s e total
      (by simp) (by simp) (by simp) (by simp) hds hes hs he hse
    simpa only [List.append_nil, List.nil_append] using h0

/-- Claim C10, witness: "1 - 3" and "1-3" both parse to [1, 2, 3] on a
10-page document. -/
theorem hyphen_token_whitespace_tolerated_witness :
    parse_page_ranges (String.mk ['1', ' ', '-', ' ', '3']) 10 = .ok [1, 2, 3] ∧
    parse_page_ranges (String.mk ['1', '-', '3']) 10 = .ok [1, 2, 3] :=
  hyphen_token_whitespace_tolerated [] [' '] [' '] [] ['1'] ['3'] 1 3 10
    (by decide) (by decide) (by decide) (by decide) (by decide) (by decide)
    rfl rfl (by decide)
